import Mathlib

/-
  Verification of the ghostty-web minimal WebSocket / PTY bridge.

  Shallow embedding of `src/bin/ghostty-web.js` (class MinimalWebSocket, the
  PTY session handler and the HTTP upgrade handler) and of the sibling demo
  server `src/demo/server/pty-server.ts`.  Byte buffers are modelled as
  `List Nat` (each element a byte value), strings as Lean `String`.
-/

set_option maxHeartbeats 1600000
set_option maxRecDepth 200000

/-- One decoded WebSocket frame (the object returned by
`MinimalWebSocket.parseFrame`): FIN flag, opcode, unmasked payload bytes. -/
structure WsFrame where
  fin : Bool
  opcode : Nat
  payload : List Nat
deriving Repr, DecidableEq

/-- `buffer.readUInt16BE(off)`: big-endian 16-bit read. -/
def read16 (buf : List Nat) (off : Nat) : Nat :=
  buf.getD off 0 * 256 + buf.getD (off + 1) 0

/-- `Number(buffer.readBigUInt64BE(off))`: big-endian 64-bit read. -/
def read64 (buf : List Nat) (off : Nat) : Nat :=
  buf.getD off 0 * 72057594037927936 + buf.getD (off + 1) 0 * 281474976710656 +
  buf.getD (off + 2) 0 * 1099511627776 + buf.getD (off + 3) 0 * 4294967296 +
  buf.getD (off + 4) 0 * 16777216 + buf.getD (off + 5) 0 * 65536 +
  buf.getD (off + 6) 0 * 256 + buf.getD (off + 7) 0

/-- The header part of `parseFrame` (`src/bin/ghostty-web.js` lines 293-314):
returns `(offset, payloadLen)` after reading the two header bytes and any
extended payload length, or `none` when too few bytes have arrived. -/
def frameHeader (buffer : List Nat) : Option (Nat × Nat) :=
  if buffer.length < 2 then none
  else
    let byte2 := buffer.getD 1 0
    let payloadLen0 := byte2 &&& 127
    if payloadLen0 = 126 then
      if buffer.length < 4 then none else some (4, read16 buffer 2)
    else if payloadLen0 = 127 then
      if buffer.length < 10 then none else some (10, read64 buffer 2)
    else some (2, payloadLen0)

/-- `MinimalWebSocket.parseFrame` (`src/bin/ghostty-web.js` lines 292-338):
decode one frame from the receive buffer, returning the frame and the
remaining (consumed-from) buffer, or `none` when the buffer does not yet hold
a complete frame. -/
def parseFrame (buffer : List Nat) : Option (WsFrame × List Nat) :=
  match frameHeader buffer with
  | none => none
  | some (offset, payloadLen) =>
    let byte1 := buffer.getD 0 0
    let byte2 := buffer.getD 1 0
    let fin : Bool := (byte1 &&& 128) != 0
    let opcode := byte1 &&& 15
    let masked : Bool := (byte2 &&& 128) != 0
    let maskLen := if masked then 4 else 0
    let totalLen := offset + maskLen + payloadLen
    if buffer.length < totalLen then none
    else
      let payload :=
        if masked then
          let mask := (buffer.drop offset).take 4
          let maskedPayload := (buffer.drop (offset + 4)).take (totalLen - (offset + 4))
          (List.range payloadLen).map (fun i => maskedPayload.getD i 0 ^^^ mask.getD (i % 4) 0)
        else (buffer.drop offset).take (totalLen - offset)
      some (⟨fin, opcode, payload⟩, buffer.drop totalLen)

/-- Big-endian 16-bit byte pair, as written by `frame.writeUInt16BE(len, 2)`. -/
def be16 (n : Nat) : List Nat := [n / 256 % 256, n % 256]

/-- Big-endian 64-bit byte octet, as written by `frame.writeBigUInt64BE`. -/
def be64 (n : Nat) : List Nat :=
  [n / 72057594037927936 % 256, n / 281474976710656 % 256, n / 1099511627776 % 256,
   n / 4294967296 % 256, n / 16777216 % 256, n / 65536 % 256, n / 256 % 256, n % 256]

/-- `MinimalWebSocket.send` (`src/bin/ghostty-web.js` lines 340-369) applied to
the UTF-8 payload bytes: FIN+TEXT header byte `0x81`, then the length encoding
(single byte below 126, `126` + 16-bit big-endian below 65536, else `127` +
64-bit big-endian), then the raw payload. -/
def encodeTextFrame (payload : List Nat) : List Nat :=
  let len := payload.length
  if len < 126 then 129 :: len :: payload
  else if len < 65536 then 129 :: 126 :: (be16 len ++ payload)
  else 129 :: 127 :: (be64 len ++ payload)

/-- RFC 6455 client-side masking: byte `i` of the payload XORed with
`mask[i % 4]` (the same XOR loop `parseFrame` uses to unmask). -/
def maskBytes (mask p : List Nat) : List Nat :=
  (List.range p.length).map (fun i => p.getD i 0 ^^^ mask.getD (i % 4) 0)

/-- A masked client frame: the outbound length encoding of `send` with the
MASK bit set in byte 2, followed by the 4-byte mask key and the masked
payload.  (Test construction: the inbound counterpart of `send`.) -/
def encodeClientFrame (fin : Bool) (opcode : Nat) (mask p : List Nat) : List Nat :=
  let len := p.length
  let b1 := (if fin then 128 else 0) + opcode
  if len < 126 then b1 :: (128 + len) :: (mask ++ maskBytes mask p)
  else if len < 65536 then b1 :: 254 :: (be16 len ++ (mask ++ maskBytes mask p))
  else b1 :: 255 :: (be64 len ++ (mask ++ maskBytes mask p))

/-- `MinimalWebSocket.sendPong` (`src/bin/ghostty-web.js` lines 371-383):
`frame[0] = 0x8a`, `frame[1] = len` (a `Buffer` element assignment stores the
value modulo 256), then the raw payload.  No extended length is ever written. -/
def sendPongFrame (data : List Nat) : List Nat :=
  138 :: data.length % 256 :: data

/-- The outbound encode algorithm exactly as the spec words it (spec section
4.2): byte 1 = `0x80 ||| opcode`; single length byte below 126; `126` plus a
big-endian 16-bit length below 65536; otherwise `127` plus a big-endian
64-bit length; then the raw payload. -/
def encodeFrameSpec (opcode : Nat) (payload : List Nat) : List Nat :=
  let len := payload.length
  if len < 126 then (128 ||| opcode) :: len :: payload
  else if len < 65536 then (128 ||| opcode) :: 126 :: (be16 len ++ payload)
  else (128 ||| opcode) :: 127 :: (be64 len ++ payload)

/-- The frame-extraction loop of `MinimalWebSocket.handleData`
(`src/bin/ghostty-web.js` lines 274-289) at frame granularity: repeatedly
parse frames while at least 2 bytes remain, stopping when `parseFrame`
returns `null`.  Fuel-indexed (each successful parse consumes at least two
bytes, so `buf.length` fuel always suffices). -/
def extractFramesF : Nat → List Nat → List WsFrame × List Nat
  | 0, buf => ([], buf)
  | fuel + 1, buf =>
    if 2 ≤ buf.length then
      match parseFrame buf with
      | none => ([], buf)
      | some (f, rest) =>
        let out := extractFramesF fuel rest
        (f :: out.1, out.2)
    else ([], buf)

/-- The decode loop on an accumulated receive buffer. -/
def extractFrames (buf : List Nat) : List WsFrame × List Nat :=
  extractFramesF buf.length buf

/-- One `data` event: `handleData` concatenates the chunk onto the receive
buffer and runs the decode loop; then the next chunk arrives, and so on.
Returns all decoded frames and the final receive buffer. -/
def feedChunks (st : List Nat) : List (List Nat) → List WsFrame × List Nat
  | [] => ([], st)
  | c :: cs =>
    let fst := extractFrames (st ++ c)
    let rest := feedChunks fst.2 cs
    (fst.1 ++ rest.1, rest.2)

/-- Observable effects of `handleData` opcode dispatch. -/
inductive WsEvent where
  | message (payload : List Nat)
  | pongSent (payload : List Nat)
  | closed
deriving Repr, DecidableEq

/-- `MinimalWebSocket.handleData` (`src/bin/ghostty-web.js` lines 271-290)
including opcode dispatch: opcode 1 emits the payload as a message, opcode 8
sends a close frame and breaks out of the loop, opcode 9 sends a pong echoing
the payload, every other opcode is consumed and ignored. -/
def processDataF : Nat → List Nat → List WsEvent × List Nat
  | 0, buf => ([], buf)
  | fuel + 1, buf =>
    if 2 ≤ buf.length then
      match parseFrame buf with
      | none => ([], buf)
      | some (f, rest) =>
        if f.opcode = 1 then
          let out := processDataF fuel rest
          (WsEvent.message f.payload :: out.1, out.2)
        else if f.opcode = 8 then ([WsEvent.closed], rest)
        else if f.opcode = 9 then
          let out := processDataF fuel rest
          (WsEvent.pongSent f.payload :: out.1, out.2)
        else processDataF fuel rest
    else ([], buf)

/-- `handleData` on a buffer holding `buf` (events emitted, buffer kept). -/
def processData (buf : List Nat) : List WsEvent × List Nat :=
  processDataF buf.length buf

/-- 32-bit left rotation (SHA-1 helper; words are Nat values below 2^32). -/
def rotl (n x : Nat) : Nat := ((x <<< n) ||| (x >>> (32 - n))) % 4294967296

/-- Truncation to a 32-bit word. -/
def w32 (x : Nat) : Nat := x % 4294967296

/-- SHA-1 round constants. -/
def sha1K (i : Nat) : Nat :=
  if i < 20 then 1518500249 else if i < 40 then 1859775393
  else if i < 60 then 2400959708 else 3395469782

/-- SHA-1 round mixing functions Ch / Parity / Maj. -/
def sha1Mix (i b c d : Nat) : Nat :=
  if i < 20 then (b &&& c) ||| ((b ^^^ 4294967295) &&& d)
  else if i < 40 then b ^^^ c ^^^ d
  else if i < 60 then (b &&& c) ||| (b &&& d) ||| (c &&& d)
  else b ^^^ c ^^^ d

/-- SHA-1 message-schedule extension, building the word list most recent
first: `W[t] = rotl 1 (W[t-3] xor W[t-8] xor W[t-14] xor W[t-16])`. -/
def sha1ExtendRev : Nat → List Nat → List Nat
  | 0, ws => ws
  | n + 1, ws =>
    let word := rotl 1 (ws.getD 2 0 ^^^ ws.getD 7 0 ^^^ ws.getD 13 0 ^^^ ws.getD 15 0)
    sha1ExtendRev n (word :: ws)

/-- The 80 SHA-1 compression rounds over the schedule words. -/
def sha1Rounds : Nat → List Nat → Nat × Nat × Nat × Nat × Nat → Nat × Nat × Nat × Nat × Nat
  | _, [], st => st
  | i, w :: ws, (a, b, c, d, e) =>
    let t := w32 (rotl 5 a + sha1Mix i b c d + e + sha1K i + w)
    sha1Rounds (i + 1) ws (t, a, rotl 30 b, c, d)

/-- Big-endian packing of bytes into 32-bit words. -/
def bytesToWords : List Nat → List Nat
  | b0 :: b1 :: b2 :: b3 :: rest =>
    (b0 * 16777216 + b1 * 65536 + b2 * 256 + b3) :: bytesToWords rest
  | _ => []

/-- One SHA-1 block step on a 64-byte block. -/
def sha1Block (block : List Nat) (h : Nat × Nat × Nat × Nat × Nat) :
    Nat × Nat × Nat × Nat × Nat :=
  let w16 := bytesToWords block
  let wAll := (sha1ExtendRev 64 w16.reverse).reverse
  let (h0, h1, h2, h3, h4) := h
  let (a, b, c, d, e) := sha1Rounds 0 wAll (h0, h1, h2, h3, h4)
  (w32 (h0 + a), w32 (h1 + b), w32 (h2 + c), w32 (h3 + d), w32 (h4 + e))

/-- Fold the block step over the padded message, 64 bytes at a time. -/
def sha1BlocksF : Nat → List Nat → Nat × Nat × Nat × Nat × Nat → Nat × Nat × Nat × Nat × Nat
  | 0, _, h => h
  | n + 1, bytes, h => sha1BlocksF n (bytes.drop 64) (sha1Block (bytes.take 64) h)

/-- SHA-1 padding: `0x80`, zeros to 56 mod 64, then the bit length big-endian. -/
def sha1Pad (msg : List Nat) : List Nat :=
  let len := msg.length
  let k := (64 - (len + 9) % 64) % 64
  msg ++ 128 :: (List.replicate k 0 ++ be64 (8 * len))

/-- Big-endian bytes of one 32-bit word. -/
def wordBytes (w : Nat) : List Nat :=
  [w / 16777216 % 256, w / 65536 % 256, w / 256 % 256, w % 256]

/-- SHA-1 of a byte sequence (the 160-bit digest used by
`crypto.createHash('sha1')` in the upgrade handler), as 20 digest bytes. -/
def sha1 (msg : List Nat) : List Nat :=
  let padded := sha1Pad msg
  let hs := sha1BlocksF (padded.length / 64) padded
    (1732584193, 4023233417, 2562383102, 271733878, 3285377520)
  wordBytes hs.1 ++ wordBytes hs.2.1 ++ wordBytes hs.2.2.1 ++
  wordBytes hs.2.2.2.1 ++ wordBytes hs.2.2.2.2

/-- The base64 alphabet. -/
def b64Alphabet : List Char :=
  "ABCDEFGHIJKLMNOPQRSTUVWXYZabcdefghijklmnopqrstuvwxyz0123456789+/".data

/-- Standard base64 encoding with `=` padding (`digest('base64')`). -/
def b64Encode : List Nat → List Char
  | b0 :: b1 :: b2 :: rest =>
    let n := b0 * 65536 + b1 * 256 + b2
    b64Alphabet.getD (n / 262144) 'A' :: b64Alphabet.getD (n / 4096 % 64) 'A' ::
    b64Alphabet.getD (n / 64 % 64) 'A' :: b64Alphabet.getD (n % 64) 'A' :: b64Encode rest
  | [b0, b1] =>
    let n := b0 * 65536 + b1 * 256
    [b64Alphabet.getD (n / 262144) 'A', b64Alphabet.getD (n / 4096 % 64) 'A',
     b64Alphabet.getD (n / 64 % 64) 'A', '=']
  | [b0] =>
    let n := b0 * 65536
    [b64Alphabet.getD (n / 262144) 'A', b64Alphabet.getD (n / 4096 % 64) 'A', '=', '=']
  | [] => []

/-- UTF-8 encoding of one character. -/
def utf8Char (c : Char) : List Nat :=
  let n := c.toNat
  if n < 128 then [n]
  else if n < 2048 then [192 ||| n / 64, 128 ||| n % 64]
  else if n < 65536 then [224 ||| n / 4096, 128 ||| n / 64 % 64, 128 ||| n % 64]
  else [240 ||| n / 262144, 128 ||| n / 4096 % 64, 128 ||| n / 64 % 64, 128 ||| n % 64]

/-- UTF-8 bytes of a string (`hash.update(string)` uses UTF-8). -/
def utf8Bytes (s : String) : List Nat := (s.data.map utf8Char).flatten

/-- The RFC 6455 GUID concatenated to the key (`src/bin/ghostty-web.js` line 576). -/
def websocketGUID : String := "258EAFA5-E914-47DA-95CA-C5AB0DC85B11"

/-- The `Sec-WebSocket-Accept` computation of the upgrade handler
(`src/bin/ghostty-web.js` lines 574-577):
`base64(sha1(utf8(key + websocketGUID)))`. -/
def computeAccept (key : String) : String :=
  ⟨b64Encode (sha1 (utf8Bytes (key ++ websocketGUID)))⟩

/-- Outcome of the `server.on('upgrade')` handler for one upgrade request. -/
inductive UpgradeOutcome where
  | badRequest
  | notFound
  | accepted (acceptValue : String)
deriving Repr, DecidableEq

/-- JS `String.prototype.startsWith`, char-by-char. -/
def strStartsWith (s pre : String) : Bool := pre.data.isPrefixOf s.data

/-- `server.on('upgrade')` (`src/bin/ghostty-web.js` lines 566-591): requests
whose URL starts with `/ws` are rejected 400 when the `Sec-WebSocket-Key`
header is missing (JS falsiness also rejects an empty header), otherwise
accepted with the computed accept value; any other URL is rejected 404. -/
def handleUpgrade (url : String) (key : Option String) : UpgradeOutcome :=
  if strStartsWith url "/ws" then
    if key.getD "" = "" then UpgradeOutcome.badRequest
    else UpgradeOutcome.accepted (computeAccept (key.getD ""))
  else UpgradeOutcome.notFound

/-- One global replace of the regex `ESC ] d ; [^BEL]* BEL` (the OSC filter
in `src/bin/ghostty-web.js` lines 448-450 and pty-server.ts lines 140-142):
scan left to right; at `ESC ] d ;` the greedy class extends over non-BEL
characters, so the match ends at the first following BEL; the match is
replaced by nothing and scanning resumes after it; with no following BEL
there is no match at this position.  Fuel-indexed, one unit per step. -/
def stripOscF (d : Char) : Nat → List Char → List Char
  | 0, s => s
  | _ + 1, [] => []
  | fuel + 1, c :: rest =>
    if c = '\x1b' then
      if rest.take 3 = [']', d, ';'] then
        match (rest.drop 3).dropWhile (fun x => x != '\x07') with
        | _ :: tail => stripOscF d fuel tail
        | [] => c :: stripOscF d fuel rest
      else c :: stripOscF d fuel rest
    else c :: stripOscF d fuel rest

/-- `str.replace(/\x1b\]d;[^\x07]*\x07/g, '')` on a whole string. -/
def stripOsc (d : Char) (s : List Char) : List Char := stripOscF d s.length s

/-- The stdout relay filter: the OSC 0 replace, then OSC 1, then OSC 2, in
the order the source applies them. -/
def oscFilter (s : List Char) : List Char :=
  stripOsc '2' (stripOsc '1' (stripOsc '0' s))

/-- A stdout chunk decomposed into literal text and title-setting escape
sequences. -/
inductive OutSeg where
  | lit (t : List Char)
  | osc (d : Char) (title : List Char)

/-- The bytes of one segment. -/
def renderSeg : OutSeg → List Char
  | OutSeg.lit t => t
  | OutSeg.osc d title => '\x1b' :: ']' :: d :: ';' :: (title ++ ['\x07'])

/-- The bytes of a decomposed chunk. -/
def renderSegs (segs : List OutSeg) : List Char := (segs.map renderSeg).flatten

/-- The surrounding bytes of a chunk: everything outside the title
sequences. -/
def litPart (segs : List OutSeg) : List Char :=
  (segs.map (fun sg => match sg with | OutSeg.lit t => t | OutSeg.osc _ _ => [])).flatten

/-- Well-formed decomposition: literal runs contain no ESC (so no title
sequence starts inside them), titles are BEL-free and ESC-free, and the
digit is one of the three the filter strips. -/
def segWf : OutSeg → Prop
  | OutSeg.lit t => '\x1b' ∉ t
  | OutSeg.osc d title => (d = '0' ∨ d = '1' ∨ d = '2') ∧ '\x1b' ∉ title ∧ '\x07' ∉ title

/-- Which segments one digit's replace keeps. -/
def segKeep (d : Char) : OutSeg → Bool
  | OutSeg.lit _ => true
  | OutSeg.osc e _ => e != d

/-- `ptyProcess.stderr.on('data')` in `src/bin/ghostty-web.js` lines 458-465:
the template literal escapes the backslash (source bytes `\\x1b`), so the
frame text is the literal characters backslash, `x`, `1`, `b`, `[31m`, then
the chunk, then the literal characters of the reset sequence. -/
def stderrFrameGhosttyWeb (d : String) : String :=
  "\\x1b[31m" ++ d ++ "\\x1b[0m"

/-- `shell.stderr.on('data')` in `src/demo/server/pty-server.ts` lines
152-159: the template literal contains the hex escape `\x1b`, so the frame is
the ANSI red-foreground escape, the chunk, then the ANSI reset escape. -/
def stderrFramePtyServer (d : String) : String :=
  "\x1b[31m" ++ d ++ "\x1b[0m"

/-- An action a bridge performs on its WebSocket connection. -/
inductive WsAct where
  | send (data : String)
  | close
deriving Repr, DecidableEq

/-- Whether a connection action sends a frame. -/
def isSendAct : WsAct → Bool
  | WsAct.send _ => true
  | WsAct.close => false

/-- `ptyProcess.on('exit')` in `src/bin/ghostty-web.js` lines 499-505: the
handler only calls `ws.close()`; nothing is sent first. -/
def ghosttyExitActions : List WsAct := [WsAct.close]

/-- The session-ended banner sent by `shell.on('exit')` in
`src/demo/server/pty-server.ts` line 165. -/
def ptyExitNotice (code : Int) : String :=
  "\r\n\x1b[1;33mShell session ended (exit code: " ++ toString code ++ ")\x1b[0m\r\n"

/-- `shell.on('exit')` in `src/demo/server/pty-server.ts` lines 162-171: send
the session-ended notice naming the exit code, then close. -/
def ptyServerExitActions (code : Int) : List WsAct :=
  [WsAct.send (ptyExitNotice code), WsAct.close]

/-- A JavaScript value produced by `JSON.parse`: null, boolean, number
(kept as its lexeme, since the bridge never computes with it), string, array
or object (field list in source order; duplicate keys allowed, lookup takes
the last). -/
inductive JVal where
  | jnull
  | jbool (b : Bool)
  | jnum (lexeme : String)
  | jstr (s : String)
  | jarr (elems : List JVal)
  | jobj (fields : List (String × JVal))

/-- JSON insignificant whitespace. -/
def isJsonWs (c : Char) : Bool :=
  c == ' ' || c == '\t' || c == '\n' || c == '\x0d'

/-- Skip insignificant whitespace. -/
def skipWs (s : List Char) : List Char := s.dropWhile isJsonWs

/-- ASCII digit test. -/
def isDigit (c : Char) : Bool := '0' ≤ c && c ≤ '9'

/-- One hex digit of a `\u` escape. -/
def parseHex (c : Char) : Option Nat :=
  if '0' ≤ c ∧ c ≤ '9' then some (c.toNat - 48)
  else if 'a' ≤ c ∧ c ≤ 'f' then some (c.toNat - 87)
  else if 'A' ≤ c ∧ c ≤ 'F' then some (c.toNat - 55)
  else none

/-- A string escape after the backslash, per the JSON grammar. -/
def parseEscape : List Char → Option (Char × List Char)
  | [] => none
  | e :: r =>
    if e = '"' then some ('"', r)
    else if e = '\\' then some ('\\', r)
    else if e = '/' then some ('/', r)
    else if e = 'b' then some ('\x08', r)
    else if e = 'f' then some ('\x0c', r)
    else if e = 'n' then some ('\n', r)
    else if e = 'r' then some ('\x0d', r)
    else if e = 't' then some ('\t', r)
    else if e = 'u' then
      match r with
      | h1 :: h2 :: h3 :: h4 :: r2 =>
        match parseHex h1, parseHex h2, parseHex h3, parseHex h4 with
        | some a, some b, some c, some d =>
          some (Char.ofNat (a * 4096 + b * 256 + c * 16 + d), r2)
        | _, _, _, _ => none
      | _ => none
    else none

/-- The body of a JSON string literal after the opening quote, up to and
consuming the closing quote.  Fuel-indexed; one character is consumed per
step, so the input length is enough fuel. -/
def parseStrBodyF : Nat → List Char → Option (List Char × List Char)
  | 0, _ => none
  | fuel + 1, s =>
    match s with
    | [] => none
    | c :: rest =>
      if c = '"' then some ([], rest)
      else if c = '\\' then
        match parseEscape rest with
        | none => none
        | some (ch, rest2) =>
          match parseStrBodyF fuel rest2 with
          | some (cs, r2) => some (ch :: cs, r2)
          | none => none
      else if c.toNat < 32 then none
      else
        match parseStrBodyF fuel rest with
        | some (cs, r2) => some (c :: cs, r2)
        | none => none

/-- A JSON number token: optional minus, integer part with no leading zero,
optional fraction, optional exponent.  Returns the lexeme and the rest. -/
def parseNumberLex (s : List Char) : Option (List Char × List Char) :=
  let negRes : List Char × List Char :=
    match s with
    | '-' :: r => (['-'], r)
    | _ => ([], s)
  let intRes : Option (List Char × List Char) :=
    match negRes.2 with
    | '0' :: r => some (['0'], r)
    | c :: _ =>
      if isDigit c then
        let ds := negRes.2.takeWhile isDigit
        some (ds, negRes.2.drop ds.length)
      else none
    | [] => none
  match intRes with
  | none => none
  | some (ip, s2) =>
    let fracRes : Option (List Char × List Char) :=
      match s2 with
      | '.' :: r =>
        let ds := r.takeWhile isDigit
        if ds.isEmpty then none else some ('.' :: ds, r.drop ds.length)
      | _ => some ([], s2)
    match fracRes with
    | none => none
    | some (fp, s3) =>
      let expRes : Option (List Char × List Char) :=
        match s3 with
        | e :: r =>
          if e = 'e' ∨ e = 'E' then
            let sgnRes : List Char × List Char :=
              match r with
              | '+' :: r2 => (['+'], r2)
              | '-' :: r2 => (['-'], r2)
              | _ => ([], r)
            let ds := sgnRes.2.takeWhile isDigit
            if ds.isEmpty then none
            else some (e :: (sgnRes.1 ++ ds), sgnRes.2.drop ds.length)
          else some ([], s3)
        | [] => some ([], s3)
      match expRes with
      | none => none
      | some (ep, s4) => some (negRes.1 ++ ip ++ fp ++ ep, s4)

/-- The members of a JSON object after the opening brace (given the parser
for element values), accumulating `key : value` pairs separated by commas
until the closing brace. -/
def parseMembersF (pv : List Char → Option (JVal × List Char)) :
    Nat → List (String × JVal) → List Char → Option (List (String × JVal) × List Char)
  | 0, _, _ => none
  | fuel + 1, acc, s =>
    match skipWs s with
    | '"' :: r1 =>
      match parseStrBodyF r1.length r1 with
      | none => none
      | some (key, r2) =>
        match skipWs r2 with
        | ':' :: r3 =>
          match pv r3 with
          | none => none
          | some (v, r4) =>
            match skipWs r4 with
            | ',' :: r5 => parseMembersF pv fuel (acc ++ [(String.mk key, v)]) r5
            | '}' :: r5 => some (acc ++ [(String.mk key, v)], r5)
            | _ => none
        | _ => none
    | _ => none

/-- The elements of a JSON array after the opening bracket. -/
def parseElemsF (pv : List Char → Option (JVal × List Char)) :
    Nat → List JVal → List Char → Option (List JVal × List Char)
  | 0, _, _ => none
  | fuel + 1, acc, s =>
    match pv s with
    | none => none
    | some (v, r1) =>
      match skipWs r1 with
      | ',' :: r2 => parseElemsF pv fuel (acc ++ [v]) r2
      | ']' :: r2 => some (acc ++ [v], r2)
      | _ => none

/-- A JSON value with leading whitespace, per the `JSON.parse` grammar.
Fuel bounds the nesting depth; every nesting level consumes at least one
character, so the input length plus one is enough fuel. -/
def parseValF : Nat → List Char → Option (JVal × List Char)
  | 0, _ => none
  | fuel + 1, s =>
    match skipWs s with
    | [] => none
    | c :: rest =>
      if c = '{' then
        match skipWs rest with
        | '}' :: r2 => some (JVal.jobj [], r2)
        | _ =>
          match parseMembersF (fun t => parseValF fuel t) (rest.length + 1) [] rest with
          | some (fields, r2) => some (JVal.jobj fields, r2)
          | none => none
      else if c = '[' then
        match skipWs rest with
        | ']' :: r2 => some (JVal.jarr [], r2)
        | _ =>
          match parseElemsF (fun t => parseValF fuel t) (rest.length + 1) [] rest with
          | some (els, r2) => some (JVal.jarr els, r2)
          | none => none
      else if c = '"' then
        match parseStrBodyF rest.length rest with
        | some (cs, r2) => some (JVal.jstr (String.mk cs), r2)
        | none => none
      else if c = 't' then
        if rest.take 3 = ['r', 'u', 'e'] then some (JVal.jbool true, rest.drop 3) else none
      else if c = 'f' then
        if rest.take 4 = ['a', 'l', 's', 'e'] then some (JVal.jbool false, rest.drop 4)
        else none
      else if c = 'n' then
        if rest.take 3 = ['u', 'l', 'l'] then some (JVal.jnull, rest.drop 3) else none
      else
        match parseNumberLex (c :: rest) with
        | some (lex, r2) => some (JVal.jnum (String.mk lex), r2)
        | none => none

/-- `JSON.parse` as used by the bridge: parse one value and require only
whitespace to remain; `none` models a thrown `SyntaxError`. -/
def parseJson (s : String) : Option JVal :=
  match parseValF (s.data.length + 1) s.data with
  | some (v, rest) => if skipWs rest = [] then some v else none
  | none => none

/-- JS property lookup on a parsed object: the last write to a key wins. -/
def jGet (fields : List (String × JVal)) (key : String) : Option JVal :=
  match fields.reverse.find? (fun f => f.1 == key) with
  | some f => some f.2
  | none => none

/-- Extract a string value from a property lookup. -/
def jStrVal : Option JVal → Option String
  | some (JVal.jstr s) => some s
  | _ => none

/-- The test of `ws.on('message')` in `src/bin/ghostty-web.js` line 472:
`msg && typeof msg === 'object' && msg.type === 'resize'` - true exactly for
a parsed object whose `type` property is the string `resize`. -/
def isResizeMsg : JVal → Bool
  | JVal.jobj fields => jStrVal (jGet fields "type") == some "resize"
  | _ => false

/-- The effect of one inbound message in `handlePTYSession`: either the
`stty cols .. rows ..` resize command built from the `cols`/`rows` fields
(and none of the payload) is written to the child, or the payload verbatim. -/
inductive PtyAction where
  | sttyResize (cols rows : Option JVal)
  | stdinWrite (data : String)

/-- `ws.on('message')` in `src/bin/ghostty-web.js` lines 468-488: try to
parse the payload as JSON; a parsed object with `type = "resize"` becomes a
resize command and returns; everything else - including any parse failure -
is written verbatim to the child process standard input. -/
def handleMessage (data : String) : PtyAction :=
  match parseJson data with
  | some (JVal.jobj fields) =>
    if isResizeMsg (JVal.jobj fields) then
      PtyAction.sttyResize (jGet fields "cols") (jGet fields "rows")
    else PtyAction.stdinWrite data
  | some _ => PtyAction.stdinWrite data
  | none => PtyAction.stdinWrite data

/-- The effect of one inbound message in the demo server: a recognized
resize request is logged and dropped; anything else is written verbatim. -/
inductive DemoAction where
  | resizeLogged
  | stdinWrite (data : String)

/-- `websocket.message` in `src/demo/server/pty-server.ts` lines 194-226:
only payloads starting with a brace are sniffed; a parsed resize request is
logged and dropped (the `script` spawn cannot resize), everything else is
written verbatim to the shell standard input. -/
def ptyServerMessage (data : String) : DemoAction :=
  if strStartsWith data "\x7b" then
    match parseJson data with
    | some v =>
      if isResizeMsg v then DemoAction.resizeLogged else DemoAction.stdinWrite data
    | none => DemoAction.stdinWrite data
  else DemoAction.stdinWrite data

/-- The spec example of a valid resize message. -/
def jsonResizeMsg : String := "\x7b\"type\":\"resize\",\"cols\":100,\"rows\":40\x7d"

/-- The spec example of truncated, invalid JSON. -/
def jsonTruncatedMsg : String := "\x7b\"type\":\"resize\""

/-- Claim C1: for every `Sec-WebSocket-Key` string, the handshake's
`Sec-WebSocket-Accept` value is base64 of the SHA-1 digest of the UTF-8
bytes of the key concatenated with the fixed GUID, and the RFC 6455 sample
key yields the RFC sample accept value. -/
theorem C1_accept_value :
    (∀ k : String, computeAccept k = ⟨b64Encode (sha1 (utf8Bytes (k ++ websocketGUID)))⟩) ∧
    computeAccept "dGhlIHNhbXBsZSBub25jZQ==" = "s3pPLMBiTxaQ9kYGzzhZRbK+xOo=" :=
  ⟨fun _ => rfl, by decide⟩

/-- Claim C9: an upgrade request on a `/ws` URL without a
`Sec-WebSocket-Key` header is answered 400 Bad Request and no session is
created; an upgrade request on any other URL is answered 404 Not Found. -/
theorem C9_upgrade_rejection (url : String) (key : Option String) :
    (strStartsWith url "/ws" = true → key = none →
      handleUpgrade url key = UpgradeOutcome.badRequest) ∧
    (strStartsWith url "/ws" = false → handleUpgrade url key = UpgradeOutcome.notFound) := by
  constructor
  · intro h hk
    subst hk
    simp [handleUpgrade, h]
  · intro h
    simp [handleUpgrade, h]

/-- Witness for C9 at concrete requests. -/
theorem C9_upgrade_rejection_witness :
    handleUpgrade "/ws?cols=80&rows=24" none = UpgradeOutcome.badRequest ∧
    handleUpgrade "/favicon.ico" (some "dGhlIHNhbXBsZSBub25jZQ==") = UpgradeOutcome.notFound :=
  ⟨(C9_upgrade_rejection "/ws?cols=80&rows=24" none).1 (by decide) rfl,
   (C9_upgrade_rejection "/favicon.ico" (some "dGhlIHNhbXBsZSBub25jZQ==")).2 (by decide)⟩

theorem byteAnd_small : ∀ x < 128, x &&& 127 = x ∧ x &&& 128 = 0 := by decide

theorem parseFrame_small_unmasked (b1 : Nat) (p tail : List Nat) (hlen : p.length < 126) :
    parseFrame (b1 :: p.length :: (p ++ tail)) =
      some (⟨(b1 &&& 128) != 0, b1 &&& 15, p⟩, tail) := by
  have h127 : p.length &&& 127 = p.length := (byteAnd_small p.length (by omega)).1
  have h128 : p.length &&& 128 = 0 := (byteAnd_small p.length (by omega)).2
  unfold parseFrame frameHeader
  simp only [List.length_cons, List.length_append, List.getD_cons_zero, List.getD_cons_succ,
    h127, h128]
  rw [if_neg (by omega), if_neg (by omega), if_neg (by omega)]
  simp only [ne_eq, OfNat.ofNat_ne_zero, not_false_eq_true, bne_self_eq_false,
    Bool.false_eq_true, if_false, bne_iff_ne]
  rw [if_neg (by omega)]
  simp only [List.drop_succ_cons, List.drop_zero]
  norm_num
  rw [show 2 + p.length = p.length + 1 + 1 by omega]
  simp only [List.drop_succ_cons]
  exact List.drop_left p tail

theorem maskBytes_length (mask p : List Nat) : (maskBytes mask p).length = p.length := by
  simp [maskBytes]

theorem getD_range_map (l : List Nat) :
    (List.range l.length).map (fun i => l.getD i 0) = l := by
  apply List.ext_getElem
  · simp
  · intro i h1 h2
    simp [List.getD_eq_getElem?_getD, List.getElem?_eq_getElem h2]

theorem unmask_maskBytes (mask p : List Nat) :
    (List.range p.length).map (fun i => (maskBytes mask p).getD i 0 ^^^ mask.getD (i % 4) 0) = p := by
  have h : ∀ i ∈ List.range p.length,
      (maskBytes mask p).getD i 0 ^^^ mask.getD (i % 4) 0 = p.getD i 0 := by
    intro i hi
    rw [List.mem_range] at hi
    have hv : (maskBytes mask p).getD i 0 = p.getD i 0 ^^^ mask.getD (i % 4) 0 := by
      unfold maskBytes
      rw [List.getD_eq_getElem?_getD, List.getElem?_map, List.getElem?_range hi]
      rfl
    rw [hv, Nat.xor_assoc, Nat.xor_self, Nat.xor_zero]
  rw [List.map_congr_left h]
  exact getD_range_map p

theorem byteAnd_masked : ∀ x < 128, (128 + x) &&& 127 = x ∧ (128 + x) &&& 128 = 128 := by decide

theorem parseFrame_small_masked (b1 : Nat) (mask p tail : List Nat)
    (hm : mask.length = 4) (hlen : p.length < 126) :
    parseFrame (b1 :: (128 + p.length) :: ((mask ++ maskBytes mask p) ++ tail)) =
      some (⟨(b1 &&& 128) != 0, b1 &&& 15, p⟩, tail) := by
  have h127 : (128 + p.length) &&& 127 = p.length := (byteAnd_masked p.length (by omega)).1
  have h128 : (128 + p.length) &&& 128 = 128 := (byteAnd_masked p.length (by omega)).2
  have hmb : (maskBytes mask p).length = p.length := maskBytes_length mask p
  unfold parseFrame frameHeader
  simp only [List.length_cons, List.length_append, List.getD_cons_zero, List.getD_cons_succ,
    h127, h128, hmb, List.append_assoc]
  rw [if_neg (by omega), if_neg (by omega), if_neg (by omega)]
  simp only [ne_eq, bne_iff_ne, OfNat.ofNat_ne_zero, not_false_eq_true, if_true]
  rw [if_neg (by omega)]
  simp only [List.drop_succ_cons, List.drop_zero]
  rw [List.take_left' hm]
  rw [show (2 + 4 + p.length - (2 + 4)) = p.length by omega]
  rw [show (2 + 2) = mask.length by omega]
  rw [List.drop_left]
  rw [List.take_left' hmb]
  rw [unmask_maskBytes]
  rw [show 2 + 4 + p.length = (mask.length + (maskBytes mask p).length) + 1 + 1 by omega]
  simp only [List.drop_succ_cons]
  rw [show mask.length + (maskBytes mask p).length = (mask ++ maskBytes mask p).length from
    (List.length_append _ _).symm]
  rw [← List.append_assoc, List.drop_left]

theorem parseFrame_medium_unmasked (b1 : Nat) (p tail : List Nat)
    (h1 : 126 ≤ p.length) (h2 : p.length < 65536) :
    parseFrame (b1 :: 126 :: (be16 p.length ++ (p ++ tail))) =
      some (⟨(b1 &&& 128) != 0, b1 &&& 15, p⟩, tail) := by
  unfold parseFrame frameHeader read16 be16
  simp only [List.cons_append, List.nil_append, List.length_cons, List.length_append,
    List.getD_cons_zero, List.getD_cons_succ]
  rw [if_neg (by omega)]
  rw [show ((126 : Nat) &&& 127) = 126 from by decide]
  rw [if_pos rfl]
  rw [if_neg (by omega)]
  have e2 : ((126 : Nat) &&& 128) = 0 := by decide
  have e3 : p.length / 256 % 256 * 256 + p.length % 256 = p.length := by omega
  simp only [e2, e3, ne_eq, OfNat.ofNat_ne_zero, not_false_eq_true, bne_self_eq_false,
    Bool.false_eq_true, if_false, bne_iff_ne]
  rw [if_neg (by omega)]
  simp only [List.drop_succ_cons, List.drop_zero]
  rw [show (4 + 0 + p.length - 4) = p.length by omega]
  rw [List.take_left' rfl]
  rw [show 4 + 0 + p.length = p.length + 1 + 1 + 1 + 1 by omega]
  simp only [List.drop_succ_cons]
  rw [List.drop_left]

theorem parseFrame_large_unmasked (b1 : Nat) (p tail : List Nat)
    (h1 : 65536 ≤ p.length) (h2 : p.length < 18446744073709551616) :
    parseFrame (b1 :: 127 :: (be64 p.length ++ (p ++ tail))) =
      some (⟨(b1 &&& 128) != 0, b1 &&& 15, p⟩, tail) := by
  unfold parseFrame frameHeader read64 be64
  simp only [List.cons_append, List.nil_append, List.length_cons, List.length_append,
    List.getD_cons_zero, List.getD_cons_succ]
  rw [if_neg (by omega)]
  rw [show ((127 : Nat) &&& 127) = 127 from by decide]
  rw [if_neg (by omega)]
  rw [if_pos rfl]
  rw [if_neg (by omega)]
  have e2 : ((127 : Nat) &&& 128) = 0 := by decide
  have e3 : p.length / 72057594037927936 % 256 * 72057594037927936 +
      p.length / 281474976710656 % 256 * 281474976710656 +
      p.length / 1099511627776 % 256 * 1099511627776 +
      p.length / 4294967296 % 256 * 4294967296 +
      p.length / 16777216 % 256 * 16777216 +
      p.length / 65536 % 256 * 65536 +
      p.length / 256 % 256 * 256 + p.length % 256 = p.length := by omega
  simp only [e2, e3, ne_eq, OfNat.ofNat_ne_zero, not_false_eq_true, bne_self_eq_false,
    Bool.false_eq_true, if_false, bne_iff_ne]
  rw [if_neg (by omega)]
  simp only [List.drop_succ_cons, List.drop_zero]
  rw [show (10 + 0 + p.length - 10) = p.length by omega]
  rw [List.take_left' rfl]
  rw [show 10 + 0 + p.length = p.length + 1 + 1 + 1 + 1 + 1 + 1 + 1 + 1 + 1 + 1 by omega]
  simp only [List.drop_succ_cons]
  rw [List.drop_left]

theorem parseFrame_medium_masked (b1 : Nat) (mask p tail : List Nat)
    (hm : mask.length = 4) (h1 : 126 ≤ p.length) (h2 : p.length < 65536) :
    parseFrame (b1 :: 254 :: (be16 p.length ++ (mask ++ (maskBytes mask p ++ tail)))) =
      some (⟨(b1 &&& 128) != 0, b1 &&& 15, p⟩, tail) := by
  have hmb : (maskBytes mask p).length = p.length := maskBytes_length mask p
  unfold parseFrame frameHeader read16 be16
  simp only [List.cons_append, List.nil_append, List.length_cons, List.length_append,
    List.getD_cons_zero, List.getD_cons_succ]
  rw [if_neg (by omega)]
  rw [show ((254 : Nat) &&& 127) = 126 from by decide]
  rw [if_pos rfl]
  rw [if_neg (by omega)]
  have e2 : ((254 : Nat) &&& 128) = 128 := by decide
  have e3 : p.length / 256 % 256 * 256 + p.length % 256 = p.length := by omega
  simp only [e2, e3, ne_eq, OfNat.ofNat_ne_zero, not_false_eq_true, bne_iff_ne, if_true]
  rw [if_neg (by omega)]
  simp only [List.drop_succ_cons, List.drop_zero]
  rw [List.take_left' hm]
  rw [show (4 + 4 + p.length - (4 + 4)) = p.length by omega]
  rw [List.drop_left' hm]
  rw [List.take_left' hmb]
  rw [unmask_maskBytes]
  rw [show 4 + 4 + p.length = ((4 + p.length) + 1 + 1) + 1 + 1 by omega]
  simp only [List.drop_succ_cons]
  rw [show (4 + p.length : Nat) = (mask ++ maskBytes mask p).length by
    rw [List.length_append, hm, hmb]]
  rw [← List.append_assoc, List.drop_left]

theorem parseFrame_large_masked (b1 : Nat) (mask p tail : List Nat)
    (hm : mask.length = 4) (h1 : 65536 ≤ p.length) (h2 : p.length < 18446744073709551616) :
    parseFrame (b1 :: 255 :: (be64 p.length ++ (mask ++ (maskBytes mask p ++ tail)))) =
      some (⟨(b1 &&& 128) != 0, b1 &&& 15, p⟩, tail) := by
  have hmb : (maskBytes mask p).length = p.length := maskBytes_length mask p
  unfold parseFrame frameHeader read64 be64
  simp only [List.cons_append, List.nil_append, List.length_cons, List.length_append,
    List.getD_cons_zero, List.getD_cons_succ]
  rw [if_neg (by omega)]
  rw [show ((255 : Nat) &&& 127) = 127 from by decide]
  rw [if_neg (by omega)]
  rw [if_pos rfl]
  rw [if_neg (by omega)]
  have e2 : ((255 : Nat) &&& 128) = 128 := by decide
  have e3 : p.length / 72057594037927936 % 256 * 72057594037927936 +
      p.length / 281474976710656 % 256 * 281474976710656 +
      p.length / 1099511627776 % 256 * 1099511627776 +
      p.length / 4294967296 % 256 * 4294967296 +
      p.length / 16777216 % 256 * 16777216 +
      p.length / 65536 % 256 * 65536 +
      p.length / 256 % 256 * 256 + p.length % 256 = p.length := by omega
  simp only [e2, e3, ne_eq, OfNat.ofNat_ne_zero, not_false_eq_true, bne_iff_ne, if_true]
  rw [if_neg (by omega)]
  simp only [List.drop_succ_cons, List.drop_zero]
  rw [List.take_left' hm]
  rw [show (10 + 4 + p.length - (10 + 4)) = p.length by omega]
  rw [List.drop_left' hm]
  rw [List.take_left' hmb]
  rw [unmask_maskBytes]
  rw [show 10 + 4 + p.length = ((4 + p.length) + 1 + 1 + 1 + 1 + 1 + 1 + 1 + 1) + 1 + 1 by omega]
  simp only [List.drop_succ_cons]
  rw [show (4 + p.length : Nat) = (mask ++ maskBytes mask p).length by
    rw [List.length_append, hm, hmb]]
  rw [← List.append_assoc, List.drop_left]

theorem byteOp_facts : ∀ x < 16, (128 + x) &&& 128 = 128 ∧ (128 + x) &&& 15 = x ∧
    x &&& 128 = 0 ∧ x &&& 15 = x := by decide

theorem parseFrame_encodeTextFrame (p tail : List Nat)
    (hlen : p.length < 18446744073709551616) :
    parseFrame (encodeTextFrame p ++ tail) = some (⟨true, 1, p⟩, tail) := by
  unfold encodeTextFrame
  by_cases h1 : p.length < 126
  · rw [if_pos h1, List.cons_append, List.cons_append,
      parseFrame_small_unmasked 129 p tail h1]
    rfl
  · by_cases h2 : p.length < 65536
    · rw [if_neg h1, if_pos h2, List.cons_append, List.cons_append, List.append_assoc,
        parseFrame_medium_unmasked 129 p tail (by omega) h2]
      rfl
    · rw [if_neg h1, if_neg h2, List.cons_append, List.cons_append, List.append_assoc,
        parseFrame_large_unmasked 129 p tail (by omega) hlen]
      rfl

theorem parseFrame_encodeClientFrame (fin : Bool) (op : Nat) (mask p tail : List Nat)
    (hm : mask.length = 4) (hop : op < 16) (hlen : p.length < 18446744073709551616) :
    parseFrame (encodeClientFrame fin op mask p ++ tail) = some (⟨fin, op, p⟩, tail) := by
  have hfin : ((((if fin then 128 else 0) + op) &&& 128) != 0) = fin := by
    cases fin
    · simp only [Bool.false_eq_true, if_false, Nat.zero_add, (byteOp_facts op hop).2.2.1]
      rfl
    · simp only [if_true, (byteOp_facts op hop).1]
      rfl
  have hopc : (((if fin then 128 else 0) + op) &&& 15) = op := by
    cases fin
    · simp only [Bool.false_eq_true, if_false, Nat.zero_add]
      exact (byteOp_facts op hop).2.2.2
    · simp only [if_true]
      exact (byteOp_facts op hop).2.1
  unfold encodeClientFrame
  by_cases h1 : p.length < 126
  · rw [if_pos h1, List.cons_append, List.cons_append,
      parseFrame_small_masked _ mask p tail hm h1, hfin, hopc]
  · by_cases h2 : p.length < 65536
    · rw [if_neg h1, if_pos h2, List.cons_append, List.cons_append, List.append_assoc,
        List.append_assoc, parseFrame_medium_masked _ mask p tail hm (by omega) h2, hfin, hopc]
    · rw [if_neg h1, if_neg h2, List.cons_append, List.cons_append, List.append_assoc,
        List.append_assoc, parseFrame_large_masked _ mask p tail hm (by omega) hlen, hfin, hopc]

theorem frameHeader_some (buf : List Nat) (o l : Nat) (h : frameHeader buf = some (o, l)) :
    2 ≤ o := by
  simp only [frameHeader] at h
  repeat' split at h
  all_goals try exact Option.noConfusion h
  all_goals simp only [Option.some.injEq, Prod.mk.injEq] at h
  all_goals omega

theorem parseFrame_consumes (buf : List Nat) (fr : WsFrame) (rest : List Nat)
    (h : parseFrame buf = some (fr, rest)) : rest.length + 2 ≤ buf.length := by
  rw [parseFrame] at h
  cases hh : frameHeader buf with
  | none => rw [hh] at h; exact Option.noConfusion h
  | some ol =>
    obtain ⟨o, l⟩ := ol
    have ho := frameHeader_some buf o l hh
    rw [hh] at h
    simp only at h
    repeat' split at h
    all_goals try exact Option.noConfusion h
    all_goals
      simp only [Option.some.injEq, Prod.mk.injEq] at h
      obtain ⟨-, h2⟩ := h
      rw [← h2]
      simp only [List.length_drop]
      omega

theorem extractFramesF_congr : ∀ f1 f2 buf, buf.length ≤ f1 → buf.length ≤ f2 →
    extractFramesF f1 buf = extractFramesF f2 buf := by
  intro f1
  induction f1 with
  | zero =>
    intro f2 buf h1 h2
    have hb : buf = [] := List.eq_nil_of_length_eq_zero (by omega)
    subst hb
    cases f2 with
    | zero => rfl
    | succ m => simp [extractFramesF]
  | succ n ih =>
    intro f2 buf h1 h2
    cases f2 with
    | zero =>
      have hb : buf = [] := List.eq_nil_of_length_eq_zero (by omega)
      subst hb
      simp [extractFramesF]
    | succ m =>
      simp only [extractFramesF]
      by_cases hb : 2 ≤ buf.length
      · simp only [if_pos hb]
        cases hp : parseFrame buf with
        | none => rfl
        | some pr =>
          obtain ⟨f, rest⟩ := pr
          have hc := parseFrame_consumes buf f rest hp
          dsimp only
          rw [ih m rest (by omega) (by omega)]
      · simp only [if_neg hb]

theorem extractFrames_step (buf : List Nat) (f : WsFrame) (rest : List Nat)
    (h : parseFrame buf = some (f, rest)) :
    extractFrames buf = (f :: (extractFrames rest).1, (extractFrames rest).2) := by
  have hc := parseFrame_consumes buf f rest h
  unfold extractFrames
  obtain ⟨n, hn⟩ : ∃ n, buf.length = n + 1 := ⟨buf.length - 1, by omega⟩
  rw [hn]
  simp only [extractFramesF]
  rw [if_pos (show 2 ≤ buf.length by omega), h]
  dsimp only
  rw [extractFramesF_congr n rest.length rest (by omega) (le_refl _)]

theorem extractFrames_stuck (buf : List Nat) (h : parseFrame buf = none) :
    extractFrames buf = ([], buf) := by
  unfold extractFrames
  cases hn : buf.length with
  | zero => simp [extractFramesF]
  | succ n =>
    simp only [extractFramesF]
    by_cases hb : 2 ≤ buf.length
    · rw [if_pos hb, h]
    · rw [if_neg hb]

theorem getD_take_eq (l : List Nat) (n i : Nat) (h : i < n) :
    (l.take n).getD i 0 = l.getD i 0 := by
  rw [List.getD_eq_getElem?_getD, List.getD_eq_getElem?_getD, List.getElem?_take_of_lt h]

theorem parseFrame_complete_length (f : List Nat) (fr : WsFrame) (o l : Nat)
    (h : parseFrame f = some (fr, [])) (hh : frameHeader f = some (o, l)) :
    f.length = o + (if (f.getD 1 0 &&& 128) != 0 then 4 else 0) + l := by
  rw [parseFrame, hh] at h
  simp only at h
  cases hmf : (f.getD 1 0 &&& 128) != 0 with
  | false =>
    simp only [hmf, Bool.false_eq_true, if_false] at h ⊢
    split at h
    · exact Option.noConfusion h
    · simp only [Option.some.injEq, Prod.mk.injEq] at h
      obtain ⟨-, h2⟩ := h
      have hl := congrArg List.length h2
      simp only [List.length_drop, List.length_nil] at hl
      omega
  | true =>
    simp only [hmf, if_true] at h ⊢
    split at h
    · exact Option.noConfusion h
    · simp only [Option.some.injEq, Prod.mk.injEq] at h
      obtain ⟨-, h2⟩ := h
      have hl := congrArg List.length h2
      simp only [List.length_drop, List.length_nil] at hl
      omega

theorem frameHeader_take_eq (f : List Nat) (o l n : Nat)
    (hh : frameHeader f = some (o, l)) (hn2 : 2 ≤ n) (hno : o ≤ n) (hnf : n ≤ f.length) :
    frameHeader (f.take n) = some (o, l) := by
  have hlt : (f.take n).length = n := by
    simp only [List.length_take]
    omega
  rw [frameHeader] at hh ⊢
  rw [if_neg (by omega)] at hh
  rw [hlt, if_neg (by omega)]
  rw [getD_take_eq f n 1 (by omega)]
  by_cases h126 : (f.getD 1 0 &&& 127) = 126
  · rw [if_pos h126] at hh ⊢
    by_cases hf4 : f.length < 4
    · rw [if_pos hf4] at hh
      exact Option.noConfusion hh
    · rw [if_neg hf4] at hh
      simp only [Option.some.injEq, Prod.mk.injEq] at hh
      obtain ⟨ho, hl⟩ := hh
      rw [if_neg (by omega)]
      simp only [Option.some.injEq, Prod.mk.injEq]
      refine ⟨ho, ?_⟩
      rw [← hl]
      unfold read16
      rw [getD_take_eq f n 2 (by omega), getD_take_eq f n 3 (by omega)]
  · by_cases h127 : (f.getD 1 0 &&& 127) = 127
    · rw [if_neg h126, if_pos h127] at hh ⊢
      by_cases hf10 : f.length < 10
      · rw [if_pos hf10] at hh
        exact Option.noConfusion hh
      · rw [if_neg hf10] at hh
        simp only [Option.some.injEq, Prod.mk.injEq] at hh
        obtain ⟨ho, hl⟩ := hh
        rw [if_neg (by omega)]
        simp only [Option.some.injEq, Prod.mk.injEq]
        refine ⟨ho, ?_⟩
        rw [← hl]
        unfold read64
        rw [getD_take_eq f n 2 (by omega), getD_take_eq f n 3 (by omega),
          getD_take_eq f n 4 (by omega), getD_take_eq f n 5 (by omega),
          getD_take_eq f n 6 (by omega), getD_take_eq f n 7 (by omega),
          getD_take_eq f n 8 (by omega), getD_take_eq f n 9 (by omega)]
    · rw [if_neg h126, if_neg h127] at hh ⊢
      exact hh

theorem frameHeader_take_none (f : List Nat) (o l n : Nat)
    (hh : frameHeader f = some (o, l)) (hn2 : 2 ≤ n) (hno : n < o) (hnf : n ≤ f.length) :
    frameHeader (f.take n) = none := by
  have hlt : (f.take n).length = n := by
    simp only [List.length_take]
    omega
  rw [frameHeader] at hh ⊢
  rw [if_neg (by omega)] at hh
  rw [hlt, if_neg (by omega)]
  rw [getD_take_eq f n 1 (by omega)]
  by_cases h126 : (f.getD 1 0 &&& 127) = 126
  · rw [if_pos h126] at hh ⊢
    by_cases hf4 : f.length < 4
    · rw [if_pos hf4] at hh
      exact Option.noConfusion hh
    · rw [if_neg hf4] at hh
      simp only [Option.some.injEq, Prod.mk.injEq] at hh
      obtain ⟨ho, -⟩ := hh
      rw [if_pos (by omega)]
  · by_cases h127 : (f.getD 1 0 &&& 127) = 127
    · rw [if_neg h126, if_pos h127] at hh ⊢
      by_cases hf10 : f.length < 10
      · rw [if_pos hf10] at hh
        exact Option.noConfusion hh
      · rw [if_neg hf10] at hh
        simp only [Option.some.injEq, Prod.mk.injEq] at hh
        obtain ⟨ho, -⟩ := hh
        rw [if_pos (by omega)]
    · rw [if_neg h126, if_neg h127] at hh
      simp only [Option.some.injEq, Prod.mk.injEq] at hh
      obtain ⟨ho, -⟩ := hh
      omega

theorem parseFrame_take_none (f : List Nat) (fr : WsFrame)
    (h : parseFrame f = some (fr, [])) (n : Nat) (hn : n < f.length) :
    parseFrame (f.take n) = none := by
  rcases hh : frameHeader f with _ | ol
  · rw [parseFrame, hh] at h
    exact Option.noConfusion h
  obtain ⟨o, l⟩ := ol
  have hflen := parseFrame_complete_length f fr o l h hh
  by_cases hn2 : n < 2
  · rw [parseFrame, frameHeader]
    rw [if_pos (by simp only [List.length_take]; omega)]
  · by_cases hno : n < o
    · rw [parseFrame, frameHeader_take_none f o l n hh (by omega) hno (by omega)]
    · rw [parseFrame, frameHeader_take_eq f o l n hh (by omega) (by omega) (by omega)]
      dsimp only
      rw [getD_take_eq f n 1 (by omega)]
      have hcond : (List.take n f).length <
          (o + if (f.getD 1 0 &&& 128 != 0) = true then 4 else 0) + l := by
        revert hflen
        generalize (if (f.getD 1 0 &&& 128 != 0) = true then 4 else 0) = m
        intro hflen
        simp only [List.length_take]
        omega
      rw [if_pos hcond]

theorem feedChunks_prefix (f : List Nat) (fr : WsFrame) (h : parseFrame f = some (fr, [])) :
    ∀ (chunks : List (List Nat)) (m : Nat), m < f.length → (∀ c ∈ chunks, c ≠ []) →
      f.take m ++ chunks.flatten = f →
      feedChunks (f.take m) chunks = ([fr], []) := by
  intro chunks
  induction chunks with
  | nil =>
    intro m hm hne hflat
    simp only [List.flatten_nil, List.append_nil] at hflat
    have hl := congrArg List.length hflat
    simp only [List.length_take] at hl
    omega
  | cons c cs ih =>
    intro m hm hne hflat
    have hlen_take : (f.take m).length = m := by
      simp only [List.length_take]
      omega
    have hflat' : (f.take m ++ c) ++ cs.flatten = f := by
      simpa [List.append_assoc] using hflat
    have hpref : f.take (m + c.length) = f.take m ++ c := by
      conv_lhs => rw [← hflat']
      rw [List.take_left' (by simp [List.length_append, hlen_take])]
    simp only [feedChunks]
    rw [← hpref]
    by_cases hend : m + c.length = f.length
    · have hall : f.take (m + c.length) = f := by
        rw [hend, List.take_length]
      rw [hall]
      have hstep := extractFrames_step f fr [] h
      have hnil : extractFrames ([] : List Nat) = ([], []) := rfl
      rw [hnil] at hstep
      have hcsflat : cs.flatten = [] := by
        have hl := congrArg List.length hflat'
        simp only [List.length_append, hlen_take] at hl
        exact List.eq_nil_of_length_eq_zero (by omega)
      have hcs : cs = [] := by
        cases cs with
        | nil => rfl
        | cons d ds =>
          simp only [List.flatten_cons, List.append_eq_nil] at hcsflat
          exact absurd hcsflat.1 (hne d (by simp))
      subst hcs
      rw [hstep]
      rfl
    · have hlt : m + c.length < f.length := by
        have hl := congrArg List.length hflat'
        simp only [List.length_append, hlen_take] at hl
        omega
      have hnone := parseFrame_take_none f fr h (m + c.length) hlt
      rw [extractFrames_stuck _ hnone]
      dsimp only
      have hrec := ih (m + c.length) hlt
        (fun c' hc' => hne c' (List.mem_cons_of_mem _ hc'))
        (by rw [hpref, List.append_assoc, ← List.flatten_cons]; exact hflat)
      rw [hrec]
      rfl

theorem processDataF_congr : ∀ f1 f2 buf, buf.length ≤ f1 → buf.length ≤ f2 →
    processDataF f1 buf = processDataF f2 buf := by
  intro f1
  induction f1 with
  | zero =>
    intro f2 buf h1 h2
    have hb : buf = [] := List.eq_nil_of_length_eq_zero (by omega)
    subst hb
    cases f2 with
    | zero => rfl
    | succ m => simp [processDataF]
  | succ n ih =>
    intro f2 buf h1 h2
    cases f2 with
    | zero =>
      have hb : buf = [] := List.eq_nil_of_length_eq_zero (by omega)
      subst hb
      simp [processDataF]
    | succ m =>
      simp only [processDataF]
      by_cases hb : 2 ≤ buf.length
      · simp only [if_pos hb]
        cases hp : parseFrame buf with
        | none => rfl
        | some pr =>
          obtain ⟨f, rest⟩ := pr
          have hc := parseFrame_consumes buf f rest hp
          dsimp only
          rw [ih m rest (by omega) (by omega)]
      · simp only [if_neg hb]

theorem processData_step (buf : List Nat) (f : WsFrame) (rest : List Nat)
    (h : parseFrame buf = some (f, rest)) :
    processData buf =
      if f.opcode = 1 then
        (WsEvent.message f.payload :: (processData rest).1, (processData rest).2)
      else if f.opcode = 8 then ([WsEvent.closed], rest)
      else if f.opcode = 9 then
        (WsEvent.pongSent f.payload :: (processData rest).1, (processData rest).2)
      else processData rest := by
  have hc := parseFrame_consumes buf f rest h
  unfold processData
  obtain ⟨n, hn⟩ : ∃ n, buf.length = n + 1 := ⟨buf.length - 1, by omega⟩
  rw [hn]
  simp only [processDataF]
  rw [if_pos (show 2 ≤ buf.length by omega), h]
  dsimp only
  rw [processDataF_congr n rest.length rest (by omega) (le_refl _)]

theorem processData_stuck (buf : List Nat) (h : parseFrame buf = none) :
    processData buf = ([], buf) := by
  unfold processData
  cases hn : buf.length with
  | zero => simp [processDataF]
  | succ n =>
    simp only [processDataF]
    by_cases hb : 2 ≤ buf.length
    · rw [if_pos hb, h]
    · rw [if_neg hb]

theorem processData_nil : processData [] = ([], []) := rfl

/-- Claim C2: for payloads of length 0, 1, 125, 126, 65535 or 65536, encoding
with the outbound TEXT framing and decoding the bytes as one inbound frame
reproduces exactly the payload; likewise for the masked client variant of the
same framing, for every 4-byte mask key. -/
theorem C2_encode_decode_roundtrip (p mask : List Nat) (hm : mask.length = 4)
    (hlen : p.length = 0 ∨ p.length = 1 ∨ p.length = 125 ∨ p.length = 126 ∨
      p.length = 65535 ∨ p.length = 65536) :
    parseFrame (encodeTextFrame p) = some (⟨true, 1, p⟩, []) ∧
    parseFrame (encodeClientFrame true 1 mask p) = some (⟨true, 1, p⟩, []) := by
  have h64 : p.length < 18446744073709551616 := by omega
  constructor
  · have hx := parseFrame_encodeTextFrame p [] h64
    simpa using hx
  · have hx := parseFrame_encodeClientFrame true 1 mask p [] hm (by omega) h64
    simpa using hx

/-- Witness for C2 at a concrete payload and mask key. -/
theorem C2_encode_decode_roundtrip_witness :
    parseFrame (encodeTextFrame [42]) = some (⟨true, 1, [42]⟩, []) ∧
    parseFrame (encodeClientFrame true 1 [1, 2, 3, 4] [42]) = some (⟨true, 1, [42]⟩, []) :=
  C2_encode_decode_roundtrip [42] [1, 2, 3, 4] (by decide) (by decide)

/-- Claim C3: for every complete encoded frame and every partition of its
bytes into consecutive non-empty chunks, feeding the decoder the chunks one
arrival at a time yields the same decoded frame as feeding the frame whole;
and on any buffer holding fewer bytes than one complete frame the decoder
produces nothing and consumes nothing. -/
theorem C3_chunked_decode (f : List Nat) (fr : WsFrame) (chunks : List (List Nat))
    (h : parseFrame f = some (fr, [])) (hne : ∀ c ∈ chunks, c ≠ [])
    (hflat : chunks.flatten = f) :
    feedChunks [] chunks = ([fr], []) ∧
    ∀ n < f.length, extractFrames (f.take n) = ([], f.take n) := by
  constructor
  · have h2 := parseFrame_consumes f fr [] h
    simp only [List.length_nil] at h2
    have hx := feedChunks_prefix f fr h chunks 0 (by omega) hne (by simpa using hflat)
    simpa using hx
  · intro n hn
    exact extractFrames_stuck _ (parseFrame_take_none f fr h n hn)

/-- Witness for C3: a 3-byte TEXT frame fed one byte at a time. -/
theorem C3_chunked_decode_witness :
    feedChunks [] [[129], [1], [65]] = ([⟨true, 1, [65]⟩], []) ∧
    ∀ n < ([129, 1, 65] : List Nat).length,
      extractFrames (([129, 1, 65] : List Nat).take n) =
        ([], ([129, 1, 65] : List Nat).take n) :=
  C3_chunked_decode [129, 1, 65] ⟨true, 1, [65]⟩ [[129], [1], [65]]
    (by decide) (by decide) (by decide)

/-- Claim C10: the decoder delivers a TEXT payload as a complete message
whether or not FIN is set; frames with opcodes other than TEXT, CLOSE and
PING are consumed from the buffer and silently discarded; a CONTINUATION
frame following a FIN-clear TEXT frame is dropped, never merged. -/
theorem C10_fin_ignored_opcode_filter (fin : Bool) (op : Nat) (mask mask2 p p2 : List Nat)
    (hm : mask.length = 4) (hm2 : mask2.length = 4) (hop : op < 16)
    (hp : p.length < 18446744073709551616) (hp2 : p2.length < 18446744073709551616) :
    (op = 1 → processData (encodeClientFrame fin op mask p) = ([WsEvent.message p], [])) ∧
    (op ≠ 1 → op ≠ 8 → op ≠ 9 →
      processData (encodeClientFrame fin op mask p) = ([], [])) ∧
    processData (encodeClientFrame false 1 mask p ++ encodeClientFrame true 0 mask2 p2) =
      ([WsEvent.message p], []) := by
  have henc : parseFrame (encodeClientFrame fin op mask p) = some (⟨fin, op, p⟩, []) := by
    have hx := parseFrame_encodeClientFrame fin op mask p [] hm hop hp
    simpa using hx
  refine ⟨?_, ?_, ?_⟩
  · intro h1
    subst h1
    rw [processData_step _ _ _ henc]
    simp [processData_nil]
  · intro h1 h8 h9
    rw [processData_step _ _ _ henc]
    dsimp only
    rw [if_neg h1, if_neg h8, if_neg h9, processData_nil]
  · have henc1 : parseFrame (encodeClientFrame false 1 mask p ++
        encodeClientFrame true 0 mask2 p2) =
        some (⟨false, 1, p⟩, encodeClientFrame true 0 mask2 p2) :=
      parseFrame_encodeClientFrame false 1 mask p _ hm (by omega) hp
    have henc2 : parseFrame (encodeClientFrame true 0 mask2 p2) = some (⟨true, 0, p2⟩, []) := by
      have hx := parseFrame_encodeClientFrame true 0 mask2 p2 [] hm2 (by omega) hp2
      simpa using hx
    rw [processData_step _ _ _ henc1]
    dsimp only
    rw [if_pos rfl]
    rw [processData_step _ _ _ henc2]
    simp [processData_nil]

/-- Witness for C10 at concrete frames. -/
theorem C10_witness :
    processData (encodeClientFrame false 1 [1, 2, 3, 4] [65]) = ([WsEvent.message [65]], []) ∧
    processData (encodeClientFrame true 2 [1, 2, 3, 4] [66]) = ([], []) ∧
    processData (encodeClientFrame false 1 [1, 2, 3, 4] [65] ++
      encodeClientFrame true 0 [5, 6, 7, 8] [66]) = ([WsEvent.message [65]], []) :=
  ⟨(C10_fin_ignored_opcode_filter false 1 [1, 2, 3, 4] [5, 6, 7, 8] [65] [66]
      (by decide) (by decide) (by decide) (by decide) (by decide)).1 rfl,
   (C10_fin_ignored_opcode_filter true 2 [1, 2, 3, 4] [5, 6, 7, 8] [66] [66]
      (by decide) (by decide) (by decide) (by decide) (by decide)).2.1
      (by decide) (by decide) (by decide),
   (C10_fin_ignored_opcode_filter false 1 [1, 2, 3, 4] [5, 6, 7, 8] [65] [66]
      (by decide) (by decide) (by decide) (by decide) (by decide)).2.2⟩

/-- Claim C8 (amended): `sendPong` always emits `0x8a` and a single length
byte equal to the payload length modulo 256; for payloads shorter than 126
bytes this matches the spec's outbound encode algorithm at opcode `0xA` and
the frame decodes to FIN set, opcode `0xA`, payload unchanged. -/
theorem C8_pong_frame (p : List Nat) :
    sendPongFrame p = 138 :: p.length % 256 :: p ∧
    (p.length < 126 →
      sendPongFrame p = encodeFrameSpec 10 p ∧
      parseFrame (sendPongFrame p) = some (⟨true, 10, p⟩, [])) := by
  refine ⟨rfl, fun h => ⟨?_, ?_⟩⟩
  · unfold sendPongFrame encodeFrameSpec
    rw [if_pos h]
    rw [Nat.mod_eq_of_lt (by omega)]
    rfl
  · unfold sendPongFrame
    rw [Nat.mod_eq_of_lt (by omega)]
    have hx := parseFrame_small_unmasked 138 p [] h
    simpa using hx

/-- Counterexample for C8 as stated: at a 126-byte PING payload, `sendPong`
does not produce the extended-length encoding the outbound encode algorithm
prescribes (it writes `126` as a plain length byte with no 16-bit length). -/
theorem C8_pong_counterexample :
    sendPongFrame (List.replicate 126 0) ≠ encodeFrameSpec 10 (List.replicate 126 0) := by
  decide

/-- Witness for C8 amended claim at a 1-byte payload. -/
theorem C8_pong_frame_witness :
    sendPongFrame [7] = encodeFrameSpec 10 [7] ∧
    parseFrame (sendPongFrame [7]) = some (⟨true, 10, [7]⟩, []) :=
  (C8_pong_frame [7]).2 (by decide)


/-- Claim C6 (code bug): the demo pty-server wraps a stderr chunk in the real
ANSI red escape and reset, but in `bin/ghostty-web.js` the template literal
escapes the backslash, so the frame starts with a literal backslash character
(0x5C), not the ESC byte 0x1B the claim prescribes, despite the adjacent
comment saying the handler does the same as the demo server. -/
theorem C6_stderr_wrap_bug :
    stderrFramePtyServer "oops" = "\x1b[31moops\x1b[0m" ∧
    stderrFrameGhosttyWeb "oops" = "\\x1b[31moops\\x1b[0m" ∧
    (stderrFrameGhosttyWeb "oops").data.getD 0 ' ' = '\\' ∧
    ('\\' : Char).toNat = 92 ∧ ('\x1b' : Char).toNat = 27 ∧
    stderrFrameGhosttyWeb "oops" ≠ stderrFramePtyServer "oops" :=
  ⟨rfl, rfl, rfl, rfl, rfl, by decide⟩

/-- Counterexample for C7 as stated: in `bin/ghostty-web.js` the process-exit
handler performs no send at all, so the client receives no notice frame
before the connection closes. -/
theorem C7_exit_counterexample :
    ghosttyExitActions.any isSendAct = false ∧ ghosttyExitActions = [WsAct.close] :=
  ⟨rfl, rfl⟩

/-- Claim C7 (amended): in the demo pty-server, process exit sends one final
notice frame whose text contains the decimal exit code, and the close comes
after it; in `bin/ghostty-web.js` the exit handler closes the connection
without sending any notice frame. -/
theorem C7_exit_notice :
    (∀ code : Int, ∃ pre post : String,
      ptyServerExitActions code = [WsAct.send (pre ++ toString code ++ post), WsAct.close]) ∧
    ghosttyExitActions = [WsAct.close] :=
  ⟨fun code => ⟨"\r\n\x1b[1;33mShell session ended (exit code: ", ")\x1b[0m\r\n", rfl⟩, rfl⟩


theorem stripOscF_congr (d : Char) : ∀ f1 f2 s, s.length ≤ f1 → s.length ≤ f2 →
    stripOscF d f1 s = stripOscF d f2 s := by
  intro f1
  induction f1 with
  | zero =>
    intro f2 s h1 h2
    have hs : s = [] := List.eq_nil_of_length_eq_zero (by omega)
    subst hs
    cases f2 with
    | zero => rfl
    | succ m => rfl
  | succ n ih =>
    intro f2 s h1 h2
    cases f2 with
    | zero =>
      have hs : s = [] := List.eq_nil_of_length_eq_zero (by omega)
      subst hs
      rfl
    | succ m =>
      cases s with
      | nil => rfl
      | cons c rest =>
        simp only [stripOscF]
        simp only [List.length_cons] at h1 h2
        by_cases hesc : c = '\x1b'
        · rw [if_pos hesc, if_pos hesc]
          by_cases htake : rest.take 3 = [']', d, ';']
          · rw [if_pos htake, if_pos htake]
            cases hdw : (rest.drop 3).dropWhile (fun x => x != '\x07') with
            | nil =>
              dsimp only
              rw [ih m rest (by omega) (by omega)]
            | cons b tail =>
              dsimp only
              have hlen : tail.length < rest.length := by
                have h3 : ((rest.drop 3).dropWhile (fun x => x != '\x07')).length ≤
                    (rest.drop 3).length := (List.dropWhile_sublist _).length_le
                rw [hdw] at h3
                simp only [List.length_cons, List.length_drop] at h3
                have h4 : 3 ≤ rest.length ∨ rest.length < 3 := by omega
                rcases h4 with h4 | h4
                · omega
                · exfalso
                  have : rest.take 3 = rest := List.take_of_length_le (by omega)
                  rw [this] at htake
                  have := congrArg List.length htake
                  simp at this
                  omega
              rw [ih m tail (by omega) (by omega)]
          · rw [if_neg htake, if_neg htake]
            rw [ih m rest (by omega) (by omega)]
        · rw [if_neg hesc, if_neg hesc]
          rw [ih m rest (by omega) (by omega)]

theorem stripOsc_cons_noesc (d c : Char) (s : List Char) (h : c ≠ '\x1b') :
    stripOsc d (c :: s) = c :: stripOsc d s := by
  unfold stripOsc
  simp only [List.length_cons, stripOscF]
  rw [if_neg h]

theorem stripOsc_append_noesc (d : Char) (u s : List Char) (h : '\x1b' ∉ u) :
    stripOsc d (u ++ s) = u ++ stripOsc d s := by
  induction u with
  | nil => simp
  | cons c t ih =>
    have hc : c ≠ '\x1b' := by
      intro hc
      apply h
      rw [hc]
      exact List.mem_cons_self _ _
    have ht : '\x1b' ∉ t := fun hm => h (List.mem_cons_of_mem _ hm)
    simp only [List.cons_append]
    rw [stripOsc_cons_noesc d c _ hc, ih ht]

theorem stripOsc_osc_match (d : Char) (title s : List Char) (hB : '\x07' ∉ title) :
    stripOsc d (('\x1b' :: ']' :: d :: ';' :: (title ++ ['\x07'])) ++ s) = stripOsc d s := by
  unfold stripOsc
  simp only [List.cons_append, List.length_cons]
  rw [stripOscF]
  rw [if_pos rfl]
  rw [if_pos (show List.take 3 (']' :: d :: ';' :: ((title ++ ['\x07']) ++ s)) =
    [']', d, ';'] from rfl)]
  rw [show List.drop 3 (']' :: d :: ';' :: ((title ++ ['\x07']) ++ s)) =
    (title ++ ['\x07']) ++ s from rfl]
  rw [show (title ++ ['\x07']) ++ s = title ++ ('\x07' :: s) by simp]
  rw [List.dropWhile_append_of_pos (by
    intro a ha
    simp only [bne_iff_ne, ne_eq]
    intro hq
    exact hB (hq ▸ ha))]
  rw [List.dropWhile_cons_of_neg (by simp)]
  dsimp only
  exact stripOscF_congr d _ _ s (by simp; omega) (le_refl _)

theorem stripOsc_osc_other (d e : Char) (title s : List Char)
    (hne : e ≠ d) (hee : e ≠ '\x1b') (hT : '\x1b' ∉ title) :
    stripOsc d (('\x1b' :: ']' :: e :: ';' :: (title ++ ['\x07'])) ++ s) =
      ('\x1b' :: ']' :: e :: ';' :: (title ++ ['\x07'])) ++ stripOsc d s := by
  unfold stripOsc
  simp only [List.cons_append, List.length_cons]
  rw [stripOscF]
  rw [if_pos rfl]
  rw [if_neg (by
    intro hq
    rw [show List.take 3 (']' :: e :: ';' :: ((title ++ ['\x07']) ++ s)) =
      [']', e, ';'] from rfl] at hq
    simp only [List.cons.injEq, and_true, true_and] at hq
    exact hne hq)]
  have hcg : stripOscF d ((title ++ ['\x07'] ++ s).length + 3)
      (']' :: e :: ';' :: (title ++ ['\x07'] ++ s)) =
      stripOsc d (']' :: e :: ';' :: (title ++ ['\x07'] ++ s)) := by
    unfold stripOsc
    exact stripOscF_congr d _ _ _ (by simp only [List.length_cons]; omega) (le_refl _)
  rw [hcg]
  rw [show ']' :: e :: ';' :: (title ++ ['\x07'] ++ s) =
    (']' :: e :: ';' :: (title ++ ['\x07'])) ++ s by simp]
  rw [stripOsc_append_noesc d _ s (by
    intro hm
    simp only [List.mem_cons, List.mem_append, List.mem_singleton] at hm
    rcases hm with h1 | h1 | h1 | h1 | h1
    · exact absurd h1.symm (by decide)
    · exact hee h1.symm
    · exact absurd h1.symm (by decide)
    · exact hT h1
    · exact absurd h1.symm (by decide))]
  simp [stripOsc]

theorem renderSegs_cons (sg : OutSeg) (rest : List OutSeg) :
    renderSegs (sg :: rest) = renderSeg sg ++ renderSegs rest := by
  simp [renderSegs]

theorem litPart_cons_lit (t : List Char) (rest : List OutSeg) :
    litPart (OutSeg.lit t :: rest) = t ++ litPart rest := by
  simp [litPart]

theorem litPart_cons_osc (e : Char) (title : List Char) (rest : List OutSeg) :
    litPart (OutSeg.osc e title :: rest) = litPart rest := by
  simp [litPart]

theorem stripOsc_renderSegs (d : Char) (segs : List OutSeg)
    (hwf : ∀ sg ∈ segs, segWf sg) :
    stripOsc d (renderSegs segs) = renderSegs (segs.filter (segKeep d)) := by
  induction segs with
  | nil => rfl
  | cons sg rest ih =>
    have hw := hwf sg (List.mem_cons_self _ _)
    have hwr : ∀ x ∈ rest, segWf x := fun x hx => hwf x (List.mem_cons_of_mem _ hx)
    cases sg with
    | lit t =>
      have ht : '\x1b' ∉ t := hw
      rw [renderSegs_cons]
      rw [show renderSeg (OutSeg.lit t) = t from rfl]
      rw [stripOsc_append_noesc d t _ ht]
      rw [ih hwr]
      rw [List.filter_cons_of_pos (by rfl)]
      rw [renderSegs_cons]
      rfl
    | osc e title =>
      obtain ⟨hdig, hesc, hbel⟩ := hw
      have hee : e ≠ '\x1b' := by
        rcases hdig with h | h | h <;> subst h <;> decide
      by_cases hed : e = d
      · subst hed
        rw [renderSegs_cons]
        rw [show renderSeg (OutSeg.osc e title) =
          '\x1b' :: ']' :: e :: ';' :: (title ++ ['\x07']) from rfl]
        rw [stripOsc_osc_match e title _ hbel]
        rw [ih hwr]
        rw [List.filter_cons_of_neg (by simp [segKeep])]
      · rw [renderSegs_cons]
        rw [show renderSeg (OutSeg.osc e title) =
          '\x1b' :: ']' :: e :: ';' :: (title ++ ['\x07']) from rfl]
        rw [stripOsc_osc_other d e title _ hed hee hesc]
        rw [ih hwr]
        rw [List.filter_cons_of_pos (by simp [segKeep, hed])]
        rw [renderSegs_cons]
        rfl

theorem renderSegs_all_filtered (segs : List OutSeg) (hwf : ∀ sg ∈ segs, segWf sg) :
    renderSegs (((segs.filter (segKeep '0')).filter (segKeep '1')).filter (segKeep '2')) =
      litPart segs := by
  induction segs with
  | nil => rfl
  | cons sg rest ih =>
    have hw := hwf sg (List.mem_cons_self _ _)
    have hwr : ∀ x ∈ rest, segWf x := fun x hx => hwf x (List.mem_cons_of_mem _ hx)
    cases sg with
    | lit t =>
      rw [List.filter_cons_of_pos (by rfl), List.filter_cons_of_pos (by rfl),
        List.filter_cons_of_pos (by rfl), renderSegs_cons, litPart_cons_lit, ih hwr]
      rfl
    | osc e title =>
      obtain ⟨hdig, -, -⟩ := hw
      rw [litPart_cons_osc]
      rcases hdig with h | h | h <;> subst h
      · rw [List.filter_cons_of_neg (by simp [segKeep])]
        exact ih hwr
      · rw [List.filter_cons_of_pos (by rfl), List.filter_cons_of_neg (by simp [segKeep])]
        exact ih hwr
      · rw [List.filter_cons_of_pos (by rfl), List.filter_cons_of_pos (by rfl),
          List.filter_cons_of_neg (by simp [segKeep])]
        exact ih hwr

/-- Claim C5: on a stdout chunk decomposed into literal runs and title
sequences, the relayed bytes equal the chunk with every OSC 0 / OSC 1 /
OSC 2 title sequence removed and all surrounding bytes unchanged; in
particular `ESC ] 2 ; My Title BEL` followed by `hello` relays as exactly
`hello`. -/
theorem C5_output_filter (segs : List OutSeg) (hwf : ∀ sg ∈ segs, segWf sg) :
    oscFilter (renderSegs segs) = litPart segs ∧
    oscFilter ("\x1b]2;My Title\x07hello".data) = "hello".data := by
  constructor
  · have hwf1 : ∀ sg ∈ segs.filter (segKeep '0'), segWf sg :=
      fun sg h => hwf sg (List.mem_of_mem_filter h)
    have hwf2 : ∀ sg ∈ (segs.filter (segKeep '0')).filter (segKeep '1'), segWf sg :=
      fun sg h => hwf1 sg (List.mem_of_mem_filter h)
    unfold oscFilter
    rw [stripOsc_renderSegs '0' segs hwf, stripOsc_renderSegs '1' _ hwf1,
      stripOsc_renderSegs '2' _ hwf2]
    exact renderSegs_all_filtered segs hwf
  · decide

/-- Witness for C5 at the spec's example chunk. -/
theorem C5_output_filter_witness :
    oscFilter (renderSegs [OutSeg.osc '2' "My Title".data, OutSeg.lit "hello".data]) =
      litPart [OutSeg.osc '2' "My Title".data, OutSeg.lit "hello".data] ∧
    oscFilter ("\x1b]2;My Title\x07hello".data) = "hello".data :=
  C5_output_filter [OutSeg.osc '2' "My Title".data, OutSeg.lit "hello".data]
    (by
      intro sg hsg
      simp only [List.mem_cons, List.mem_singleton, List.not_mem_nil, or_false] at hsg
      rcases hsg with h | h
      · subst h
        unfold segWf
        decide
      · subst h
        unfold segWf
        decide)


/-- Claim C4 (amended): in `bin/ghostty-web.js`, a payload parsing as a JSON
object with `type = "resize"` yields the stty resize command for its cols
and rows fields and none of the payload reaches the child standard input;
every other payload - invalid JSON included - is written verbatim, and a
parse failure never propagates (the handler is a total function).  The demo
pty-server withholds a recognized resize from standard input but issues no
terminal-size-setting command (it only logs the request). -/
theorem C4_resize_dispatch :
    (∀ s fields, parseJson s = some (JVal.jobj fields) →
      isResizeMsg (JVal.jobj fields) = true →
      handleMessage s = PtyAction.sttyResize (jGet fields "cols") (jGet fields "rows")) ∧
    (∀ s v, parseJson s = some v → isResizeMsg v = false →
      handleMessage s = PtyAction.stdinWrite s) ∧
    (∀ s, parseJson s = none → handleMessage s = PtyAction.stdinWrite s) ∧
    (∀ s, parseJson s = none → ptyServerMessage s = DemoAction.stdinWrite s) ∧
    handleMessage jsonResizeMsg =
      PtyAction.sttyResize (some (JVal.jnum "100")) (some (JVal.jnum "40")) ∧
    handleMessage jsonTruncatedMsg = PtyAction.stdinWrite jsonTruncatedMsg ∧
    ptyServerMessage jsonResizeMsg = DemoAction.resizeLogged := by
  refine ⟨?_, ?_, ?_, ?_, rfl, rfl, rfl⟩
  · intro s fields hp hr
    unfold handleMessage
    rw [hp]
    dsimp only
    rw [if_pos hr]
  · intro s v hp hr
    unfold handleMessage
    rw [hp]
    cases v with
    | jobj fields =>
      dsimp only
      rw [if_neg (by simp [hr])]
    | jnull => rfl
    | jbool b => rfl
    | jnum l => rfl
    | jstr t => rfl
    | jarr es => rfl
  · intro s hp
    unfold handleMessage
    rw [hp]
  · intro s hp
    unfold ptyServerMessage
    by_cases hb : strStartsWith s "\x7b" = true
    · rw [if_pos hb, hp]
    · rw [if_neg hb]

/-- Witness for C4 at the spec example and a plain keystroke payload. -/
theorem C4_resize_dispatch_witness :
    handleMessage jsonResizeMsg =
      PtyAction.sttyResize (some (JVal.jnum "100")) (some (JVal.jnum "40")) ∧
    handleMessage "hi" = PtyAction.stdinWrite "hi" :=
  ⟨C4_resize_dispatch.1 jsonResizeMsg
      [("type", JVal.jstr "resize"), ("cols", JVal.jnum "100"), ("rows", JVal.jnum "40")]
      rfl rfl,
   C4_resize_dispatch.2.2.1 "hi" rfl⟩

/-- Counterexample for C4 as stated: at the valid resize message, the demo
pty-server bridge only logs the request - no terminal-size-setting command
is issued - while the claim requires one; the launcher bridge does issue
it. -/
theorem C4_demo_counterexample :
    ptyServerMessage jsonResizeMsg = DemoAction.resizeLogged ∧
    handleMessage jsonResizeMsg =
      PtyAction.sttyResize (some (JVal.jnum "100")) (some (JVal.jnum "40")) :=
  ⟨rfl, rfl⟩
